import Mathlib

/-!
Shallow embedding of the Tower CLI watch-list sync daemon
(tower_cli/src/daemon/sync-daemon.ts), the watch command
(tower_cli/src/commands/watch.ts with utils/config.ts), and the API
client health probe (tower_cli/src/utils/api-client.ts).

The filesystem and the remote registry are modelled as an environment
of oracles; calls that can throw in the source are Except-valued.
The filesystem is assumed stable within one reconciliation cycle, so
the two statSync calls a file receives inside syncFile agree.
-/

namespace Tower

/-- FileState record kept by the daemon: path, mtimeMs, size (sync-daemon.ts lines 8-12). -/
structure FileState where
  path : String
  mtime : Int
  size : Int
deriving DecidableEq, Repr

/-- An outgoing remote operation: apiClient.registerFile or apiClient.deleteFileByPath, identified by the path it concerns. -/
inductive RemoteCall where
  | register (path : String)
  | delete (path : String)
deriving DecidableEq, Repr

/-- The daemon's fileStates JS Map, as an insertion-ordered association list keyed by path. -/
abbrev FMap := List (String × FileState)

/-- Map.get. -/
def mapGet (m : FMap) (k : String) : Option FileState :=
  match m with
  | [] => none
  | (k', v) :: t => if k' = k then some v else mapGet t k

/-- Map.set: update in place when the key exists (JS Maps keep insertion order), append otherwise. -/
def mapSet (m : FMap) (k : String) (v : FileState) : FMap :=
  match m with
  | [] => [(k, v)]
  | (k', v') :: t => if k' = k then (k, v) :: t else (k', v') :: mapSet t k v

/-- Map.delete: remove the entry with the given key. -/
def mapDelete (m : FMap) (k : String) : FMap :=
  match m with
  | [] => []
  | (k', v') :: t => if k' = k then mapDelete t k else (k', v') :: mapDelete t k

/-- Result of fs.statSync: kind flags plus the identity-relevant attributes. -/
structure Stats where
  isFile : Bool
  isDir : Bool
  mtime : Int
  size : Int
deriving DecidableEq, Repr

/-- Environment of oracles for one reconciliation cycle: remote health, per-path register/delete outcomes, and the filesystem. Except-valued oracles model calls that may throw. -/
structure Env where
  healthOk : Bool
  registerOk : String → Bool
  deleteOk : String → Bool
  fsExists : String → Bool
  fsStat : String → Except String Stats
  globFiles : String → Except String (List String)

/-- path.sep on the daemon's platform. -/
def pathSep : String := "/"

/-- Character-list core of the JS String.prototype.startsWith test. -/
def charsBegin : List Char → List Char → Bool
  | [], _ => true
  | _ :: _, [] => false
  | a :: as, b :: bs => a == b && charsBegin as bs

/-- beginsWith s p models the JS call s.startsWith(p). -/
def beginsWith (s p : String) : Bool := charsBegin p.data s.data

/-- Effects accumulated by one daemon subroutine: updated fileStates, remote calls issued (in order), warnings logged, and an uncaught exception if one escaped. -/
structure SyncR where
  states : FMap
  calls : List RemoteCall
  warns : List String
  err : Option String
deriving DecidableEq, Repr

/-- syncFile (sync-daemon.ts lines 88-110): stat the file (outside the try, so a throw escapes), compare mtime and size against the previous FileState; when new or changed, build metadata (a second statSync, inside the try) and register; record the new state only on success. -/
def syncFile (env : Env) (m : FMap) (p : String) : SyncR :=
  match env.fsStat p with
  | .error e => ⟨m, [], [], some e⟩
  | .ok st =>
    let cur : FileState := ⟨p, st.mtime, st.size⟩
    let attempt : SyncR :=
      match env.fsStat p with
      | .error e => ⟨m, [], ["Failed to sync " ++ p ++ ": " ++ e], none⟩
      | .ok _ =>
        if env.registerOk p then
          ⟨mapSet m p cur, [RemoteCall.register p], [], none⟩
        else
          ⟨m, [RemoteCall.register p], ["Failed to sync " ++ p], none⟩
    match mapGet m p with
    | none => attempt
    | some prev =>
      if prev.mtime ≠ cur.mtime ∨ prev.size ≠ cur.size then attempt
      else ⟨m, [], [], none⟩

/-- Loop body of handleDeletedPath: awaited delete per key; the FileState entry is removed only when the delete succeeded, otherwise a warning is logged and the entry is kept. -/
def hdpLoop (env : Env) (m : FMap) (ks : List String) : SyncR :=
  match ks with
  | [] => ⟨m, [], [], none⟩
  | k :: t =>
    if env.deleteOk k then
      let r := hdpLoop env (mapDelete m k) t
      ⟨r.states, RemoteCall.delete k :: r.calls, r.warns, none⟩
    else
      let r := hdpLoop env m t
      ⟨r.states, RemoteCall.delete k :: r.calls, ("Failed to delete " ++ k) :: r.warns, none⟩

/-- handleDeletedPath (sync-daemon.ts lines 123-140): collect the keys equal to the watched path or starting with it plus the separator, then delete each remotely, dropping the FileState entry on success only. -/
def handleDeletedPath (env : Env) (m : FMap) (w : String) : SyncR :=
  hdpLoop env m ((m.map Prod.fst).filter (fun k => k == w || beginsWith k (w ++ pathSep)))

/-- Loop body of cleanupDeletedFiles: the delete call is fire-and-forget (a rejection only logs a warning later) and the FileState entry is removed unconditionally. -/
def cdfLoop (env : Env) (m : FMap) (ks : List String) : SyncR :=
  match ks with
  | [] => ⟨m, [], [], none⟩
  | k :: t =>
    let w : List String := if env.deleteOk k then [] else ["Failed to delete " ++ k]
    let r := cdfLoop env (mapDelete m k) t
    ⟨r.states, RemoteCall.delete k :: r.calls, w ++ r.warns, none⟩

/-- cleanupDeletedFiles (sync-daemon.ts lines 142-158): keys under the directory (strictly, via the separator) that are absent from the current glob listing are deleted remotely without awaiting, and dropped from fileStates regardless of the call's outcome. -/
def cleanupDeletedFiles (env : Env) (m : FMap) (d : String) (files : List String) : SyncR :=
  cdfLoop env m ((m.map Prod.fst).filter (fun k => beginsWith k (d ++ pathSep) && !(files.contains k)))

/-- Loop of syncDirectory over the globbed files; an exception from syncFile aborts the loop, keeping the effects already applied. -/
def sdLoop (env : Env) (m : FMap) (fs : List String) : SyncR :=
  match fs with
  | [] => ⟨m, [], [], none⟩
  | f :: t =>
    let r := syncFile env m f
    match r.err with
    | some _ => r
    | none =>
      let r2 := sdLoop env r.states t
      ⟨r2.states, r.calls ++ r2.calls, r.warns ++ r2.warns, r2.err⟩

/-- syncDirectory (sync-daemon.ts lines 112-121): glob the directory, sync each file, then run cleanupDeletedFiles (only reached when the loop raised no exception). -/
def syncDirectory (env : Env) (m : FMap) (d : String) : SyncR :=
  match env.globFiles d with
  | .error e => ⟨m, [], [], some e⟩
  | .ok files =>
    let r := sdLoop env m files
    match r.err with
    | some _ => r
    | none =>
      let c := cleanupDeletedFiles env r.states d files
      ⟨c.states, r.calls ++ c.calls, r.warns ++ c.warns, none⟩

/-- syncPath (sync-daemon.ts lines 73-86): a missing path is handled as deleted; otherwise stat it and dispatch on file versus directory. -/
def syncPath (env : Env) (m : FMap) (p : String) : SyncR :=
  if env.fsExists p then
    match env.fsStat p with
    | .error e => ⟨m, [], [], some e⟩
    | .ok st =>
      if st.isFile then syncFile env m p
      else if st.isDir then syncDirectory env m p
      else ⟨m, [], [], none⟩
  else handleDeletedPath env m p

/-- Loop of syncOnce over the watch list paths; an exception aborts the remaining iterations but keeps effects already applied. -/
def syncList (env : Env) (m : FMap) (wl : List String) : SyncR :=
  match wl with
  | [] => ⟨m, [], [], none⟩
  | p :: t =>
    let r := syncPath env m p
    match r.err with
    | some _ => r
    | none =>
      let r2 := syncList env r.states t
      ⟨r2.states, r.calls ++ r2.calls, r.warns ++ r2.warns, r2.err⟩

/-- Observable outcome of one reconciliation cycle: final fileStates, remote calls issued, warnings, and Logger.error lines. -/
structure CycleOut where
  states : FMap
  calls : List RemoteCall
  warns : List String
  errors : List String
deriving DecidableEq, Repr

/-- syncOnce (sync-daemon.ts lines 54-71): probe health and skip with a single warning when the backend is down; otherwise sync every watched path, converting any escaped exception into a single Logger.error line via the surrounding try/catch. -/
def syncOnce (env : Env) (m : FMap) (wl : List String) : CycleOut :=
  if env.healthOk then
    let r := syncList env m wl
    match r.err with
    | none => ⟨r.states, r.calls, r.warns, []⟩
    | some e => ⟨r.states, r.calls, r.warns, ["Sync failed: " ++ e]⟩
  else ⟨m, [], ["Backend not running - skipping sync"], []⟩

/-- WatchedItem of the watch list (types/index.ts): absolute path plus ISO timestamp of addition. -/
structure WatchedItem where
  path : String
  addedAt : String
deriving DecidableEq, Repr

/-- Outcome of the addWatch command: the duplicateWatch case models the DuplicateWatchError of the specification (the source logs an Already-watching warning and leaves the list untouched). -/
inductive AddOutcome where
  | pathNotFound
  | duplicateWatch
  | added
deriving DecidableEq, Repr

/-- addWatch (commands/watch.ts lines 15-50 together with ConfigManager.addWatch in utils/config.ts): reject a path missing from the filesystem, then reject a duplicate of an existing watch entry, otherwise append one WatchedItem with addedAt set to now and persist. -/
def addWatch (fsEx : String → Bool) (wl : List WatchedItem) (p : String) (now : String) :
    AddOutcome × List WatchedItem :=
  if fsEx p = false then (AddOutcome.pathNotFound, wl)
  else if wl.any (fun it => it.path == p) then (AddOutcome.duplicateWatch, wl)
  else (AddOutcome.added, wl ++ [⟨p, now⟩])

/-- Scheduler state touched by SyncDaemon.stop: the interval handle and the running flag. -/
structure DaemonSchedState where
  intervalId : Option Nat
  isRunning : Bool
deriving DecidableEq, Repr

/-- stop (sync-daemon.ts lines 45-52): clearInterval when a handle is held, drop the handle, clear the running flag; the returned list holds the timer ids cancelled by this call. -/
def stop (s : DaemonSchedState) : DaemonSchedState × List Nat :=
  match s.intervalId with
  | some id => (⟨none, false⟩, [id])
  | none => (⟨none, false⟩, [])

/-- Response visible to healthCheck: the status property of the parsed body, none when the body lacks one. -/
structure HealthResponse where
  statusField : Option String
deriving DecidableEq, Repr

/-- healthCheck (api-client.ts lines 56-63): the axios GET of the backend root either rejects (network error or non-2xx status, the error branch) or yields a response; the probe returns whether the body's status field is exactly the expected string, and the catch folds every rejection to false. -/
def healthCheck (g : Except String HealthResponse) : Bool :=
  match g with
  | .error _ => false
  | .ok r => r.statusField == some "File Sync API is running"

/-! Helper lemmas shared by the claim theorems. -/

theorem mapGet_mapSet_self (m : FMap) (k : String) (v : FileState) :
    mapGet (mapSet m k v) k = some v := by
  induction m with
  | nil => simp [mapSet, mapGet]
  | cons hd t ih =>
    obtain ⟨k', v'⟩ := hd
    by_cases h : k' = k
    · simp [mapSet, mapGet, h]
    · simp [mapSet, mapGet, h, ih]

theorem mapGet_mapDelete_ne (m : FMap) (k p : String) (h : k ≠ p) :
    mapGet (mapDelete m k) p = mapGet m p := by
  induction m with
  | nil => rfl
  | cons hd t ih =>
    obtain ⟨k', v'⟩ := hd
    by_cases hk : k' = k
    · subst hk
      simp [mapDelete, mapGet, h, ih]
    · by_cases hp : k' = p
      · simp [mapDelete, mapGet, hk, hp, Ne.symm h]
      · simp [mapDelete, mapGet, hk, hp, ih]

theorem hdpLoop_frame (env : Env) (ks : List String) (m : FMap) (p : String)
    (h : p ∉ ks) :
    mapGet (hdpLoop env m ks).states p = mapGet m p ∧
    RemoteCall.delete p ∉ (hdpLoop env m ks).calls := by
  induction ks generalizing m with
  | nil => simp [hdpLoop]
  | cons k t ih =>
    have hkp : k ≠ p := fun he => h (he ▸ List.mem_cons_self k t)
    have ht : p ∉ t := fun hm => h (List.mem_cons_of_mem k hm)
    cases hd : env.deleteOk k
    · have hrec := ih m ht
      refine ⟨?_, ?_⟩
      · simp only [hdpLoop, hd, Bool.false_eq_true, if_false]
        exact hrec.1
      · simp only [hdpLoop, hd, Bool.false_eq_true, if_false, List.mem_cons]
        rintro (hc | hc)
        · injection hc with he
          exact hkp he.symm
        · exact hrec.2 hc
    · have hrec := ih (mapDelete m k) ht
      refine ⟨?_, ?_⟩
      · simp only [hdpLoop, hd, if_true]
        rw [hrec.1, mapGet_mapDelete_ne m k p hkp]
      · simp only [hdpLoop, hd, if_true, List.mem_cons]
        rintro (hc | hc)
        · injection hc with he
          exact hkp he.symm
        · exact hrec.2 hc

/-! Concrete environments used by closed theorems and witnesses. -/

/-- Environment where the backend is healthy, the watched root is a directory whose glob listing is empty, and every remote delete call rejects. -/
def envCleanupFail : Env :=
  ⟨true, fun _ => true, fun _ => false, fun _ => true,
    fun _ => Except.ok ⟨false, true, 0, 0⟩, fun _ => Except.ok []⟩

/-- Environment where the backend is healthy, every path exists as a regular file with mtime 1 and size 10, and every remote call succeeds. -/
def envOrphan : Env :=
  ⟨true, fun _ => true, fun _ => true, fun _ => true,
    fun _ => Except.ok ⟨true, false, 1, 10⟩, fun _ => Except.ok []⟩

/-- Environment whose health check reports the backend as down. -/
def envDown : Env :=
  ⟨false, fun _ => true, fun _ => true, fun _ => true,
    fun _ => Except.ok ⟨true, false, 0, 0⟩, fun _ => Except.ok []⟩

/-- Environment where the backend is healthy, every path is a regular file with mtime 2 and size 5, and every remote call succeeds. -/
def envFile : Env :=
  ⟨true, fun _ => true, fun _ => true, fun _ => true,
    fun _ => Except.ok ⟨true, false, 2, 5⟩, fun _ => Except.ok []⟩

/-- C1: the claim states that a FileState entry survives the cycle whenever its delete call fails, in particular during directory cleanup. The code contradicts this: cleanupDeletedFiles fires deleteFileByPath without awaiting it and removes the fileStates entry unconditionally, so after a cycle in which the only delete call rejected, the entry is gone and the deletion is never retried. This theorem evaluates the cycle at that failing input. -/
theorem cleanupDeletedFiles_drops_state_despite_failed_delete :
    envCleanupFail.deleteOk "/w/a.txt" = false ∧
    syncOnce envCleanupFail [("/w/a.txt", ⟨"/w/a.txt", 1, 10⟩)] ["/w"] =
      ⟨[], [RemoteCall.delete "/w/a.txt"], ["Failed to delete /w/a.txt"], []⟩ :=
  ⟨rfl, rfl⟩

/-- C3: the claim states that after a WatchEntry is removed, the next cycle issues a delete call for each previously registered file under it and drops the FileState entries. The code contradicts this: syncOnce iterates only the current watch list, so a FileState entry whose owning watch was removed (the watch list here is empty) while the file still exists on disk receives no delete call and stays in fileStates unchanged. -/
theorem syncOnce_ignores_entries_of_removed_watch :
    envOrphan.fsExists "/w/a.txt" = true ∧
    syncOnce envOrphan [("/w/a.txt", ⟨"/w/a.txt", 1, 10⟩)] [] =
      ⟨[("/w/a.txt", ⟨"/w/a.txt", 1, 10⟩)], [], [], []⟩ :=
  ⟨rfl, rfl⟩

/-- C4: when the health check returns false, the cycle issues no remote call at all, leaves fileStates exactly as it was, and logs the single skipping warning. -/
theorem syncOnce_skipped_cycle_frame (env : Env) (m : FMap) (wl : List String)
    (h : env.healthOk = false) :
    syncOnce env m wl = ⟨m, [], ["Backend not running - skipping sync"], []⟩ := by
  simp [syncOnce, h]

/-- Witness for C4 at a concrete down environment, watch list and state map. -/
theorem syncOnce_skipped_cycle_frame_witness :
    syncOnce envDown [("/a", ⟨"/a", 0, 0⟩)] ["/a", "/b"] =
      ⟨[("/a", ⟨"/a", 0, 0⟩)], [], ["Backend not running - skipping sync"], []⟩ :=
  syncOnce_skipped_cycle_frame envDown [("/a", ⟨"/a", 0, 0⟩)] ["/a", "/b"] rfl

/-- C5: syncOnce is a total function of the oracle environment: for every behavior of the filesystem and the remote client, including any subroutine raising an exception, the cycle returns an ordinary CycleOut; an exception escaping the body is folded by the surrounding catch into the single logged error line, never propagated to the caller. -/
theorem syncOnce_catches_every_error (env : Env) (m : FMap) (wl : List String) :
    syncOnce env m wl =
      if env.healthOk then
        ⟨(syncList env m wl).states, (syncList env m wl).calls, (syncList env m wl).warns,
          ((syncList env m wl).err).elim [] (fun e => ["Sync failed: " ++ e])⟩
      else ⟨m, [], ["Backend not running - skipping sync"], []⟩ := by
  cases h : env.healthOk
  · simp [syncOnce, h]
  · cases herr : (syncList env m wl).err <;> simp [syncOnce, h, herr]

/-- C8: stop is idempotent: a second stop keeps the state reached by the first (no timer handle, running flag false), cancels nothing further, and returns normally. -/
theorem stop_idempotent (s : DaemonSchedState) :
    stop (stop s).1 = ((stop s).1, []) ∧
    (stop s).1.intervalId = none ∧ (stop s).1.isRunning = false := by
  obtain ⟨iid, run⟩ := s
  cases iid <;> simp [stop]

/-- C9: healthCheck resolves to true exactly when the GET of the backend root succeeded and the body's status field is the exact expected string; every rejected request (network error or non-2xx) and every differing body yields false, and the function is total, so it never throws. -/
theorem healthCheck_true_iff (g : Except String HealthResponse) :
    healthCheck g = true ↔
      ∃ r, g = Except.ok r ∧ r.statusField = some "File Sync API is running" := by
  cases g with
  | error e => simp [healthCheck]
  | ok r => simp [healthCheck]

/-- C7 counterexample: the claim says that add on a path not present in the watch list appends exactly one WatchEntry, but addWatch checks the filesystem first: for the path /nope, absent from the empty watch list but missing on disk, it reports path-not-found and appends nothing. -/
theorem addWatch_missing_path_appends_nothing :
    addWatch (fun _ => false) [] "/nope" "t0" = (AddOutcome.pathNotFound, []) := rfl

/-- C7 amended: for a path that exists on the filesystem, add fails with the duplicate-watch outcome on a path already watched, leaving the list unchanged, and appends exactly one WatchEntry stamped now otherwise; a path missing from the filesystem is rejected with the list unchanged; in all cases at most one entry per path is preserved. -/
theorem addWatch_spec (fsEx : String → Bool) (wl : List WatchedItem) (p now : String) :
    (fsEx p = true → (∃ it ∈ wl, it.path = p) →
      addWatch fsEx wl p now = (AddOutcome.duplicateWatch, wl)) ∧
    (fsEx p = true → (∀ it ∈ wl, it.path ≠ p) →
      addWatch fsEx wl p now = (AddOutcome.added, wl ++ [⟨p, now⟩])) ∧
    (fsEx p = false → addWatch fsEx wl p now = (AddOutcome.pathNotFound, wl)) ∧
    ((wl.map WatchedItem.path).Nodup →
      (((addWatch fsEx wl p now).2.map WatchedItem.path)).Nodup) := by
  refine ⟨?_, ?_, ?_, ?_⟩
  · intro hex hdup
    have hany : wl.any (fun it => it.path == p) = true := by
      obtain ⟨it, hit, he⟩ := hdup
      exact List.any_eq_true.mpr ⟨it, hit, by simp [he]⟩
    simp [addWatch, hex, hany]
  · intro hex hnone
    have hany : wl.any (fun it => it.path == p) = false := by
      rw [List.any_eq_false]
      intro it hit
      simp [hnone it hit]
    simp [addWatch, hex, hany]
  · intro hex
    simp [addWatch, hex]
  · intro hnd
    cases hex : fsEx p
    · simp [addWatch, hex, hnd]
    · cases hany : wl.any (fun it => it.path == p)
      · have hmem : p ∉ wl.map WatchedItem.path := by
          rw [List.any_eq_false] at hany
          intro hc
          obtain ⟨it, hit, he⟩ := List.mem_map.mp hc
          exact absurd (by simp [he]) (hany it hit)
        simp only [addWatch, hex, hany, Bool.true_eq_false, Bool.false_eq_true, if_false,
          List.map_append, List.map_cons, List.map_nil]
        exact List.nodup_append.mpr ⟨hnd, List.nodup_singleton p, by
          intro a ha hb
          simp only [List.mem_singleton] at hb
          exact hmem (hb ▸ ha)⟩
      · simp [addWatch, hex, hany, hnd]

/-- Witness for C7 applying the amended theorem at a fresh existing path. -/
theorem addWatch_spec_witness :
    addWatch (fun _ => true) [] "/a" "t0" = (AddOutcome.added, [⟨"/a", "t0"⟩]) :=
  (addWatch_spec (fun _ => true) [] "/a" "t0").2.1 rfl (by simp)

/-- C2: given the stat snapshot of a file, syncFile issues a register call exactly when fileStates has no entry for the path or the stored mtime or size differs; when the prior entry matches the snapshot in path, mtime and size, the cycle performs no remote call for the file and leaves everything unchanged; and a successful register stores exactly the snapshot's path, mtime and size in fileStates. -/
theorem syncFile_register_characterization (env : Env) (m : FMap) (p : String) (st : Stats)
    (h : env.fsStat p = Except.ok st) :
    ((RemoteCall.register p ∈ (syncFile env m p).calls) ↔
      (mapGet m p = none ∨
        ∃ prev, mapGet m p = some prev ∧ (prev.mtime ≠ st.mtime ∨ prev.size ≠ st.size))) ∧
    (∀ prev, mapGet m p = some prev → prev.path = p → prev.mtime = st.mtime →
      prev.size = st.size → syncFile env m p = ⟨m, [], [], none⟩) ∧
    ((mapGet m p = none ∨
        ∃ prev, mapGet m p = some prev ∧ (prev.mtime ≠ st.mtime ∨ prev.size ≠ st.size)) →
      env.registerOk p = true →
      mapGet (syncFile env m p).states p = some ⟨p, st.mtime, st.size⟩ ∧
      RemoteCall.register p ∈ (syncFile env m p).calls) := by
  refine ⟨?_, ?_, ?_⟩
  · cases hm : mapGet m p with
    | none =>
      cases hreg : env.registerOk p <;> simp [syncFile, h, hm, hreg]
    | some prev =>
      by_cases hc : prev.mtime ≠ st.mtime ∨ prev.size ≠ st.size
      · cases hreg : env.registerOk p <;> simp [syncFile, h, hm, hreg, hc]
      · push_neg at hc
        simp [syncFile, h, hm, hc.1, hc.2]
  · intro prev hm hp hmt hsz
    simp [syncFile, h, hm, hmt, hsz]
  · intro hch hreg
    cases hm : mapGet m p with
    | none =>
      exact ⟨by simp [syncFile, h, hm, hreg, mapGet_mapSet_self],
        by simp [syncFile, h, hm, hreg]⟩
    | some prev =>
      rcases hch with hch | ⟨prev', hprev', hc⟩
      · rw [hm] at hch
        exact absurd hch (by simp)
      · rw [hm] at hprev'
        injection hprev' with he
        subst he
        exact ⟨by simp [syncFile, h, hm, hc, hreg, mapGet_mapSet_self],
          by simp [syncFile, h, hm, hc, hreg]⟩

/-- Witness for C2 at an empty fileStates map and a concrete file snapshot with a succeeding register call. -/
theorem syncFile_register_characterization_witness :
    mapGet (syncFile envFile [] "/f").states "/f" = some ⟨"/f", 2, 5⟩ ∧
    RemoteCall.register "/f" ∈ (syncFile envFile [] "/f").calls :=
  (syncFile_register_characterization envFile [] "/f" ⟨true, false, 2, 5⟩ rfl).2.2
    (Or.inl rfl) rfl

/-- C10: when a watched path has disappeared, handleDeletedPath touches only the watched path's own entry and the entries strictly below it (path plus separator boundary); any other path, including a sibling sharing a bare string prefix, keeps its FileState entry and receives no delete call. -/
theorem handleDeletedPath_spares_unrelated_paths (env : Env) (m : FMap) (w p : String)
    (hne : p ≠ w) (hsep : beginsWith p (w ++ pathSep) = false) :
    mapGet (handleDeletedPath env m w).states p = mapGet m p ∧
    RemoteCall.delete p ∉ (handleDeletedPath env m w).calls := by
  have hnotin :
      p ∉ (m.map Prod.fst).filter (fun k => k == w || beginsWith k (w ++ pathSep)) := by
    intro hc
    have hpred := (List.mem_filter.mp hc).2
    simp only [Bool.or_eq_true, beq_iff_eq] at hpred
    rcases hpred with hh | hh
    · exact hne hh
    · simp [hsep] at hh
  simpa only [handleDeletedPath] using hdpLoop_frame env _ m p hnotin

/-- Witness for C10: unwatching the vanished path /data deletes its file entries but the sibling /data2, a bare string-prefix match without the separator, keeps its entry and gets no delete call. -/
theorem handleDeletedPath_spares_unrelated_paths_witness :
    mapGet (handleDeletedPath envFile
      [("/data", ⟨"/data", 0, 1⟩), ("/data2", ⟨"/data2", 0, 2⟩),
        ("/data/f.txt", ⟨"/data/f.txt", 0, 3⟩)] "/data").states "/data2" =
      some ⟨"/data2", 0, 2⟩ ∧
    RemoteCall.delete "/data2" ∉ (handleDeletedPath envFile
      [("/data", ⟨"/data", 0, 1⟩), ("/data2", ⟨"/data2", 0, 2⟩),
        ("/data/f.txt", ⟨"/data/f.txt", 0, 3⟩)] "/data").calls := by
  have h := handleDeletedPath_spares_unrelated_paths envFile
    [("/data", ⟨"/data", 0, 1⟩), ("/data2", ⟨"/data2", 0, 2⟩),
      ("/data/f.txt", ⟨"/data/f.txt", 0, 3⟩)] "/data" "/data2" (by decide) (by decide)
  exact ⟨h.1.trans (by decide), h.2⟩

end Tower
